import Mathlib

/-!
Verification of the visidata_hpc column-aggregation and cached-derivation
core (`visidata/aggregators.py` and `visidata/shell.py`) against its
natural-language specification.

The Python source is shallowly embedded:
* Python strings are `List Char`; `str.split()` (whitespace-run splitting)
  and `sep.join(...)` are modelled by `pySplitWs` and `pyJoin`.
* Generators (`getValueRows`, `getValues`) become `List`-valued functions.
* A function that may raise becomes `Except`-valued; the value returned by
  a cell accessor `getTypedValue` is passed in as a parameter
  `gtv : Row → Except ε V` since the accessor lives outside this module.
* Aggregator objects carry their `__name__` and a `uid` standing for
  Python object identity (`aggregators.py` compares aggregators with
  `in` / `not in`, i.e. object equality of the function objects).
-/

namespace VisidataHPC

/-! ## Python string model -/

/-- The six characters `str.split()` treats as whitespace. -/
def pyIsSpace (c : Char) : Bool :=
  c == ' ' || c == '\t' || c == '\n' || c == '\r' || c == '\x0b' || c == '\x0c'

/-- Helper for `pySplitWs`: `acc` holds the current word, reversed. -/
def pySplitWsAux : List Char → List Char → List (List Char)
  | [], acc => if acc = [] then [] else [acc.reverse]
  | c :: cs, acc =>
    if pyIsSpace c then
      if acc = [] then pySplitWsAux cs []
      else acc.reverse :: pySplitWsAux cs []
    else pySplitWsAux cs (c :: acc)

/-- Python `s.split()` with no argument: split on runs of whitespace,
dropping empty tokens. -/
def pySplitWs (s : List Char) : List (List Char) :=
  pySplitWsAux s []

/-- Python `sep.join(words)`. -/
def pyJoin (sep : List Char) : List (List Char) → List Char
  | [] => []
  | [w] => w
  | w :: ws => w ++ sep ++ pyJoin sep ws

/-! ## Value Extractor (`Column.getValueRows` / `Column.getValues`)

`aggregators.py` lines 9–25: for each row, call `getTypedValue`; on any
exception skip the row; skip null values (per `isNullFunc`); otherwise
yield `(value, row)`.  The `Progress` wrapper yields the rows unchanged
and is omitted (the spec declares it informational only). -/

/-- The value the extractor keeps for row `r`: `some v` when
`getTypedValue` succeeds with a non-null `v`, else `none`. -/
def extractOpt {Row V ε : Type} (gtv : Row → Except ε V) (isNull : V → Bool)
    (r : Row) : Option V :=
  match gtv r with
  | .ok v => if isNull v then none else some v
  | .error _ => none

/-- Model of `Column.getValueRows(rows)`: the `(value, row)` pairs for rows whose
typed value is extracted without error and is non-null. -/
def getValueRows {Row V ε : Type} (gtv : Row → Except ε V) (isNull : V → Bool)
    (rows : List Row) : List (V × Row) :=
  rows.filterMap (fun r =>
    match gtv r with
    | .ok v => if isNull v then none else some (v, r)
    | .error _ => none)

/-- Model of `Column.getValues(rows)`: the value projection of `getValueRows`. -/
def getValues {Row V ε : Type} (gtv : Row → Except ε V) (isNull : V → Bool)
    (rows : List Row) : List V :=
  (getValueRows gtv isNull rows).map Prod.fst

/-! ## Bulk-aggregator wrapper (`aggregator`, lines 36–47)

`aggregator(name, func)` wraps `func` as `_func(col, rows)`:
materialize `vals = list(col.getValues(rows))`, call `func(vals)`;
on an exception return `None` when `vals` was empty, else return the
exception object itself as the result. -/

/-- Result of a wrapped bulk aggregator: a value, Python `None`
(empty input), or the caught exception returned as the result. -/
inductive AggResult (S ε : Type) : Type
  | value (s : S)
  | noneResult
  | error (e : ε)
deriving DecidableEq

/-- The `_func` wrapper built by `aggregator(name, func, *args)`. -/
def aggregatorWrap {Row V S ε ε' : Type} (func : List V → Except ε S)
    (gtv : Row → Except ε' V) (isNull : V → Bool) (rows : List Row) :
    AggResult S ε :=
  let vals := getValues gtv isNull rows
  match func vals with
  | .ok s => .value s
  | .error e => if vals.length = 0 then .noneResult else .error e

/-- The bulk function of the `count` aggregator:
`lambda values: sum(1 for v in values)`.  It cannot raise. -/
def countFunc {V ε : Type} (vals : List V) : Except ε Nat :=
  .ok vals.length

/-- The registered `count` aggregator: `countFunc` through the wrapper. -/
def countAggregate {Row V ε ε' : Type} (gtv : Row → Except ε' V)
    (isNull : V → Bool) (rows : List Row) : AggResult Nat ε :=
  aggregatorWrap countFunc gtv isNull rows

/-! ## Order statistics (`_percentile`, lines 61–80)

Python floats are modelled by `ℚ`; `int()` truncates toward zero. -/

/-- Python `int()` on a number: truncation toward zero. -/
def pyInt (x : ℚ) : ℤ :=
  if 0 ≤ x then ⌊x⌋ else ⌈x⌉

/-- Model of `_percentile(N, percent)` (`key` left at the identity default):
`None` on empty input, else interpolate at rank `k = (len(N)-1)*percent`
between `N[floor(k)]` and `N[ceil(k)]`.  Indexing is total via `getD`;
with `percent` in `[0,1]` the indices are in range, matching Python. -/
def _percentile (N : List ℚ) (percent : ℚ) : Option ℚ :=
  if N = [] then none
  else
    let k : ℚ := ((N.length : ℚ) - 1) * percent
    let f : ℤ := ⌊k⌋
    let c : ℤ := ⌈k⌉
    if f = c then some (N.getD (pyInt k).toNat 0)
    else
      let d0 := N.getD f.toNat 0 * ((c : ℚ) - k)
      let d1 := N.getD c.toNat 0 * (k - (f : ℚ))
      some (d0 + d1)

/-- Python `round()` on a number: round half to even. -/
def pyRound (x : ℚ) : ℤ :=
  let f : ℤ := ⌊x⌋
  let r : ℚ := x - (f : ℚ)
  if r < 1/2 then f
  else if 1/2 < r then f + 1
  else if f % 2 = 0 then f else f + 1

/-! ## Aggregator objects and the registry

An aggregator object is identified by its `__name__` and its Python
object identity, here a `uid`.  The registry `aggregators` maps a name
to either a single aggregator or a list (quantile families). -/

/-- An aggregator object: `__name__` plus object identity. -/
structure Aggregator : Type where
  name : List Char
  uid : Nat
deriving DecidableEq

/-- A value of the `aggregators` dict: a single annotated function, or a
list of them (`q3`, `q4`, `q5`, `q10`). -/
inductive RegEntry : Type
  | single (a : Aggregator)
  | family (l : List Aggregator)
deriving DecidableEq

/-- Model of `percentile(pct)` (lines 82–84): the memoized factory returns, for a
given integer percentage, the aggregator named `p<pct>`; `lru_cache`
makes repeated calls return the identical object, captured here by a
`uid` determined by `pct`. -/
def percentile (pct : Nat) : Aggregator :=
  ⟨'p' :: (Nat.repr pct).toList, 1000 + pct⟩

/-- Model of `quantiles(q)` (lines 86–87): percentile aggregators at cut points
`round(100*i/q)` for `i` in `1..q-1`. -/
def quantiles (q : Nat) : List Aggregator :=
  (List.range (q - 1)).map (fun i =>
    (pyRound ((100 * ((i : ℚ) + 1)) / (q : ℚ))).toNat |> percentile)

/-- The global `aggregators` OrderedDict as populated at module load
(lines 89–105): nine bulk aggregators, four quantile families, and
`keymax`.  `uid`s are distinct stand-ins for the distinct function
objects (`avg` and `mean` wrap `mean` in two distinct `_func` closures). -/
def builtinAggregatorList : List (List Char × RegEntry) :=
  [("min".toList, .single ⟨"min".toList, 0⟩),
   ("max".toList, .single ⟨"max".toList, 1⟩),
   ("avg".toList, .single ⟨"avg".toList, 2⟩),
   ("mean".toList, .single ⟨"mean".toList, 3⟩),
   ("median".toList, .single ⟨"median".toList, 4⟩),
   ("sum".toList, .single ⟨"sum".toList, 5⟩),
   ("distinct".toList, .single ⟨"distinct".toList, 6⟩),
   ("count".toList, .single ⟨"count".toList, 7⟩),
   ("list".toList, .single ⟨"list".toList, 8⟩),
   ("q3".toList, .family (quantiles 3)),
   ("q4".toList, .family (quantiles 4)),
   ("q5".toList, .family (quantiles 5)),
   ("q10".toList, .family (quantiles 10)),
   ("keymax".toList, .single ⟨"keymax".toList, 9⟩)]

/-- Lookup `aggregators.get(name)` over the builtin registry. -/
def builtinAggregators (k : List Char) : Option RegEntry :=
  builtinAggregatorList.lookup k

/-! ## Column-aggregator binding (`addAggregators`, lines 114–124, and
the ColumnsSheet `aggregators` column getter/setter, lines 108–112)

A column is represented by its `aggregators` list (a column without the
attribute behaves as the empty list, which `addAggregators` installs). -/

/-- Model of `aggrs = aggrs if isinstance(aggrs, list) else [aggrs]`: the list of
aggregators (or `None` placeholders) a name resolves to.  An unknown
name gives `[None]` because `dict.get` returns `None`. -/
def resolveName (reg : List Char → Option RegEntry) (nm : List Char) :
    List (Option Aggregator) :=
  match reg nm with
  | none => [none]
  | some (.single a) => [some a]
  | some (.family l) => l.map some

/-- The inner loop body of `addAggregators`:
`if aggr and aggr not in c.aggregators: c.aggregators += [aggr]`. -/
def attachOne (oa : Option Aggregator) (c : List Aggregator) :
    List Aggregator :=
  match oa with
  | none => c
  | some a => if a ∈ c then c else c ++ [a]

/-- Model of `addAggregators(cols, aggrnames)`: for each name, resolve through the
registry; for each resolved aggregator, attach to every column. -/
def addAggregators (reg : List Char → Option RegEntry)
    (cols : List (List Aggregator)) (names : List (List Char)) :
    List (List Aggregator) :=
  names.foldl (fun cs nm =>
    (resolveName reg nm).foldl (fun cs2 oa => cs2.map (attachOne oa)) cs) cols

/-- The `aggregators` column getter (line 110):
`' '.join(x.__name__ for x in row.aggregators)`. -/
def formatAggregatorList (aggs : List Aggregator) : List Char :=
  pyJoin [' '] (aggs.map (fun a => a.name))

/-- The generator inside the setter (line 111):
`list(aggregators[k] for k in tokens)` — dict indexing raises `KeyError`
at the first unknown token. -/
def resolveTokens (reg : List Char → Option RegEntry) :
    List (List Char) → Except Unit (List RegEntry)
  | [] => .ok []
  | t :: ts =>
    match reg t with
    | none => .error ()
    | some e =>
      match resolveTokens reg ts with
      | .ok rest => .ok (e :: rest)
      | .error u => .error u

/-- The `aggregators` column setter (line 111): split the input on
whitespace and resolve every token through the registry. -/
def parseAggregatorList (reg : List Char → Option RegEntry)
    (s : List Char) : Except Unit (List RegEntry) :=
  resolveTokens reg (pySplitWs s)

/-! ## `keymax` (line 105)

`keymax` is `col.sheet.rowkey(max(col.getValueRows(rows))[1])`: Python
`max` over `(value, row)` tuples.  Tuples compare lexicographically, and
`max` keeps the current item unless a later item is strictly greater, so
among fully equal tuples the first survives.  Rows enter the comparison,
so the model asks for a linear order on rows (with incomparable rows
Python would raise `TypeError` on a value tie). -/

/-- Python `>` on `(value, row)` tuples: lexicographic. -/
def pyTupleGt {V R : Type} [LinearOrder V] [LinearOrder R]
    (y m : V × R) : Bool :=
  decide (m.1 < y.1 ∨ (y.1 = m.1 ∧ m.2 < y.2))

/-- Python `max(iterable)`: `None` stands for the `ValueError` on empty
input; otherwise fold keeping the first of any equal maxima. -/
def pyMax {V R : Type} [LinearOrder V] [LinearOrder R]
    (l : List (V × R)) : Option (V × R) :=
  match l with
  | [] => none
  | x :: xs => some (xs.foldl (fun m y => if pyTupleGt y m then y else m) x)

/-- The `keymax` aggregator: row key of the tuple-max of
`getValueRows`. -/
def keymaxAggregate {Row V K ε : Type} [LinearOrder V] [LinearOrder Row]
    (rowkey : Row → K) (gtv : Row → Except ε V) (isNull : V → Bool)
    (rows : List Row) : Option K :=
  (pyMax (getValueRows gtv isNull rows)).map (fun p => rowkey p.2)

/-! ## Cached Derived-Value Engine

Modelled from the spec: the `asynccache` decorator applied to
`ColumnShell.calcValue` (`shell.py` line 55) lives outside this
repository's sources; only its caller is under `src/`.  Spec §4.5: per
key the entry moves `Absent → Pending → Resolved(value|error)`;
`Absent→Pending` happens exactly once (single-flight), `Resolved` is
terminal and never invalidated, and a raised error is stored as the
resolution and never retried. -/

/-- A resolved cache outcome: the computed value or the raised error. -/
inductive Resolution (V ε : Type) : Type
  | ok (v : V)
  | err (e : ε)
deriving DecidableEq

/-- Modelled from the spec: the sequential contract of `get(key,
computeFn)`.  Returns the outcome, the updated cache, and whether the
underlying computation was invoked. -/
def cacheGet {K V ε : Type} [DecidableEq K]
    (cache : K → Option (Resolution V ε)) (k : K)
    (computeFn : Unit → Resolution V ε) :
    Resolution V ε × (K → Option (Resolution V ε)) × Bool :=
  match cache k with
  | some o => (o, cache, false)
  | none =>
    let o := computeFn ()
    (o, fun k2 => if k2 = k then some o else cache k2, true)

/-- Modelled from the spec: the per-key state of a cache entry. -/
inductive EntryState (V ε : Type) : Type
  | absent
  | pending
  | resolved (o : Resolution V ε)
deriving DecidableEq

/-- Point update of a cache-state map. -/
def updateEntry {K V ε : Type} [DecidableEq K]
    (s : K → EntryState V ε) (k : K) (st : EntryState V ε) :
    K → EntryState V ε :=
  fun k2 => if k2 = k then st else s k2

/-- Modelled from the spec: observable events of the engine under
concurrent requests.  `startCompute k` is the `Absent→Pending`
transition together with launching the computation; `resolve k o` is the
computation finishing with outcome `o`; `deliver k o` is some requester
observing the stored resolution `o`. -/
inductive CacheEvent (K V ε : Type) : Type
  | startCompute (k : K)
  | resolve (k : K) (o : Resolution V ε)
  | deliver (k : K) (o : Resolution V ε)
deriving DecidableEq

/-- Modelled from the spec: the atomic transitions of the engine.
A computation starts only on an absent entry; it resolves only a pending
entry; a requester is answered only from a resolved entry. -/
inductive CacheStep {K V ε : Type} [DecidableEq K] :
    (K → EntryState V ε) → CacheEvent K V ε → (K → EntryState V ε) → Prop
  | startCompute {s : K → EntryState V ε} {k : K} (h : s k = .absent) :
      CacheStep s (.startCompute k) (updateEntry s k .pending)
  | resolve {s : K → EntryState V ε} {k : K} {o : Resolution V ε}
      (h : s k = .pending) :
      CacheStep s (.resolve k o) (updateEntry s k (.resolved o))
  | deliver {s : K → EntryState V ε} {k : K} {o : Resolution V ε}
      (h : s k = .resolved o) :
      CacheStep s (.deliver k o) s

/-- An interleaved execution: a sequence of atomic engine events. -/
inductive CacheTrace {K V ε : Type} [DecidableEq K] :
    (K → EntryState V ε) → List (CacheEvent K V ε) →
    (K → EntryState V ε) → Prop
  | nil {s : K → EntryState V ε} : CacheTrace s [] s
  | cons {s s' s'' : K → EntryState V ε} {e : CacheEvent K V ε}
      {evs : List (CacheEvent K V ε)}
      (hstep : CacheStep s e s') (htrace : CacheTrace s' evs s'') :
      CacheTrace s (e :: evs) s''

/-- The engine's initial state: every entry absent. -/
def initCacheState (K V ε : Type) : K → EntryState V ε :=
  fun _ => .absent

/-! ## Helper lemmas: whitespace splitting inverts joining -/

theorem pySplitWsAux_append (w : List Char)
    (hw : ∀ c ∈ w, pyIsSpace c = false) (cs acc : List Char) :
    pySplitWsAux (w ++ cs) acc = pySplitWsAux cs (w.reverse ++ acc) := by
  induction w generalizing acc with
  | nil => simp
  | cons c w ih =>
    have hc : pyIsSpace c = false := hw c (by simp)
    have hw2 : ∀ c2 ∈ w, pyIsSpace c2 = false := fun c2 h2 => hw c2 (by simp [h2])
    simp only [List.cons_append, pySplitWsAux, hc, Bool.false_eq_true, if_false]
    show pySplitWsAux (w ++ cs) (c :: acc) = _
    rw [ih hw2]
    simp

theorem pySplitWs_join (words : List (List Char))
    (h : ∀ w ∈ words, w ≠ [] ∧ ∀ c ∈ w, pyIsSpace c = false) :
    pySplitWs (pyJoin [' '] words) = words := by
  induction words with
  | nil => rfl
  | cons w ws ih =>
    obtain ⟨hwne, hwns⟩ := h w (by simp)
    cases ws with
    | nil =>
      show pySplitWsAux (pyJoin [' '] [w]) [] = [w]
      have : pyJoin [' '] [w] = w ++ [] := by simp [pyJoin]
      rw [this, pySplitWsAux_append w hwns]
      simp [pySplitWsAux, hwne]
    | cons w2 ws2 =>
      have hrest := ih (fun u hu => h u (by simp [hu]))
      show pySplitWsAux (pyJoin [' '] (w :: w2 :: ws2)) [] = w :: w2 :: ws2
      have hj : pyJoin [' '] (w :: w2 :: ws2) =
          w ++ (' ' :: pyJoin [' '] (w2 :: ws2)) := by
        simp [pyJoin]
      rw [hj, pySplitWsAux_append w hwns]
      have hsp : pyIsSpace ' ' = true := rfl
      have hwr : w.reverse ++ [] ≠ [] := by simpa using hwne
      simp only [pySplitWsAux, hsp, if_true, if_neg hwr]
      simpa using hrest

/-! ## Helper lemmas: token resolution -/

theorem resolveTokens_map_single (reg : List Char → Option RegEntry)
    (aggs : List Aggregator)
    (h : ∀ a ∈ aggs, reg a.name = some (.single a)) :
    resolveTokens reg (aggs.map (fun a => a.name)) =
      .ok (aggs.map RegEntry.single) := by
  induction aggs with
  | nil => rfl
  | cons a aggs ih =>
    have ha := h a (by simp)
    have hrest := ih (fun a2 h2 => h a2 (by simp [h2]))
    simp only [List.map_cons, resolveTokens, ha, hrest]

theorem resolveTokens_unknown (reg : List Char → Option RegEntry)
    (toks : List (List Char)) (tok : List Char)
    (hmem : tok ∈ toks) (hreg : reg tok = none) :
    resolveTokens reg toks = .error () := by
  induction toks with
  | nil => simp at hmem
  | cons t ts ih =>
    rcases List.mem_cons.mp hmem with h | h
    · subst h
      simp only [resolveTokens, hreg]
    · cases hr : reg t with
      | none => simp only [resolveTokens, hr]
      | some e => simp only [resolveTokens, hr, ih h]

/-- The `q4` entry of the registry, concretely. -/
theorem quantiles_four :
    quantiles 4 = [percentile 25, percentile 50, percentile 75] := by
  simp [quantiles, List.range_succ, pyRound]
  norm_num
  exact ⟨rfl, rfl, rfl⟩

/-! ## Helper lemmas: the extractor as a filter -/

theorem getValueRows_map_snd {Row V ε : Type} (gtv : Row → Except ε V)
    (isNull : V → Bool) (rows : List Row) :
    (getValueRows gtv isNull rows).map Prod.snd =
      rows.filter (fun r => (extractOpt gtv isNull r).isSome) := by
  induction rows with
  | nil => rfl
  | cons r rows ih =>
    simp only [getValueRows, List.filterMap_cons] at ih ⊢
    cases hr : gtv r with
    | ok v =>
      cases hn : isNull v with
      | true => simpa [List.filter_cons, extractOpt, hr, hn] using ih
      | false => simpa [List.filter_cons, extractOpt, hr, hn] using ih
    | error e => simpa [List.filter_cons, extractOpt, hr] using ih

theorem getValueRows_val {Row V ε : Type} (gtv : Row → Except ε V)
    (isNull : V → Bool) (rows : List Row) :
    ∀ p ∈ getValueRows gtv isNull rows,
      extractOpt gtv isNull p.2 = some p.1 := by
  induction rows with
  | nil => simp [getValueRows]
  | cons r rows ih =>
    intro p hp
    simp only [getValueRows, List.filterMap_cons] at hp
    cases hr : gtv r with
    | ok v =>
      cases hn : isNull v with
      | true =>
        rw [hr] at hp
        simp only [hn, if_true] at hp
        exact ih p hp
      | false =>
        rw [hr] at hp
        simp only [hn, Bool.false_eq_true, if_false, List.mem_cons] at hp
        rcases hp with h | h
        · subst h
          simp [extractOpt, hr, hn]
        · exact ih p h
    | error e =>
      rw [hr] at hp
      exact ih p hp

/-! ## Helper lemmas: Python tuple max -/

/-- The (total) lexicographic order on `(value, row)` tuples that Python
tuple comparison implements. -/
def lexLe {V R : Type} [LinearOrder V] [LinearOrder R] (q p : V × R) : Prop :=
  q.1 < p.1 ∨ (q.1 = p.1 ∧ q.2 ≤ p.2)

theorem lexLe_refl {V R : Type} [LinearOrder V] [LinearOrder R]
    (p : V × R) : lexLe p p :=
  Or.inr ⟨rfl, le_refl _⟩

theorem lexLe_trans {V R : Type} [LinearOrder V] [LinearOrder R]
    {a b c : V × R} (h1 : lexLe a b) (h2 : lexLe b c) : lexLe a c := by
  rcases h1 with h1 | ⟨h1e, h1r⟩
  · rcases h2 with h2 | ⟨h2e, h2r⟩
    · exact Or.inl (lt_trans h1 h2)
    · exact Or.inl (h2e ▸ h1)
  · rcases h2 with h2 | ⟨h2e, h2r⟩
    · exact Or.inl (h1e ▸ h2)
    · exact Or.inr ⟨h1e.trans h2e, le_trans h1r h2r⟩

theorem lexLe_step_left {V R : Type} [LinearOrder V] [LinearOrder R]
    (x z : V × R) : lexLe x (if pyTupleGt z x then z else x) := by
  by_cases h : pyTupleGt z x = true
  · rw [if_pos h]
    rcases of_decide_eq_true h with h2 | ⟨h2e, h2r⟩
    · exact Or.inl h2
    · exact Or.inr ⟨h2e.symm, le_of_lt h2r⟩
  · rw [if_neg h]
    exact lexLe_refl x

theorem lexLe_step_right {V R : Type} [LinearOrder V] [LinearOrder R]
    (x z : V × R) : lexLe z (if pyTupleGt z x then z else x) := by
  by_cases h : pyTupleGt z x = true
  · rw [if_pos h]
    exact lexLe_refl z
  · rw [if_neg h]
    have h2 := of_decide_eq_false (Bool.of_not_eq_true h)
    push_neg at h2
    rcases lt_or_eq_of_le h2.1 with hlt | heq
    · exact Or.inl hlt
    · exact Or.inr ⟨heq, h2.2 heq⟩

theorem pyMaxFold_mem {V R : Type} [LinearOrder V] [LinearOrder R]
    (xs : List (V × R)) (x : V × R) :
    xs.foldl (fun m y => if pyTupleGt y m then y else m) x ∈ x :: xs := by
  induction xs generalizing x with
  | nil => simp
  | cons z rest ih =>
    have h := ih (if pyTupleGt z x then z else x)
    simp only [List.foldl_cons]
    rcases List.mem_cons.mp h with h2 | h2
    · rw [h2]
      by_cases hg : pyTupleGt z x = true
      · simp [hg]
      · simp [hg]
    · simp [List.mem_cons.mpr (Or.inr (List.mem_cons.mpr (Or.inr h2)))]

theorem pyMaxFold_ub {V R : Type} [LinearOrder V] [LinearOrder R]
    (xs : List (V × R)) (x : V × R) :
    ∀ y ∈ x :: xs, lexLe y (xs.foldl (fun m y => if pyTupleGt y m then y else m) x) := by
  induction xs generalizing x with
  | nil =>
    intro y hy
    simp only [List.foldl_nil]
    rw [List.mem_singleton.mp hy]
    exact lexLe_refl x
  | cons z rest ih =>
    intro y hy
    have hm1 := ih (if pyTupleGt z x then z else x)
    simp only [List.foldl_cons]
    have hstep : lexLe (if pyTupleGt z x then z else x)
        (rest.foldl (fun m y => if pyTupleGt y m then y else m)
          (if pyTupleGt z x then z else x)) :=
      hm1 _ (by simp)
    rcases List.mem_cons.mp hy with h2 | h2
    · subst h2
      exact lexLe_trans (lexLe_step_left y z) hstep
    · rcases List.mem_cons.mp h2 with h3 | h3
      · subst h3
        exact lexLe_trans (lexLe_step_right x y) hstep
      · exact hm1 y (List.mem_cons.mpr (Or.inr h3))

/-! ## Helper lemmas: cache engine traces -/

theorem cacheStep_nonabsent {K V ε : Type} [DecidableEq K]
    {s s' : K → EntryState V ε} {e : CacheEvent K V ε}
    (h : CacheStep s e s') (k : K) (hk : s k ≠ .absent) : s' k ≠ .absent := by
  cases h with
  | startCompute h2 =>
    rename_i k2
    by_cases hkk : k = k2
    · simp [updateEntry, hkk]
    · simpa [updateEntry, hkk] using hk
  | resolve h2 =>
    rename_i k2 o2
    by_cases hkk : k = k2
    · simp [updateEntry, hkk]
    · simpa [updateEntry, hkk] using hk
  | deliver h2 => exact hk

theorem cacheTrace_nostart {K V ε : Type} [DecidableEq K]
    {s s' : K → EntryState V ε} {evs : List (CacheEvent K V ε)}
    [DecidableEq V] [DecidableEq ε]
    (h : CacheTrace s evs s') (k : K) (hk : s k ≠ .absent) :
    evs.count (.startCompute k) = 0 := by
  induction h with
  | nil => rfl
  | cons hstep htrace ih =>
    rw [List.count_cons]
    rename_i s0 s1 s2 e evs2
    by_cases he : e = CacheEvent.startCompute k
    · subst he
      cases hstep with
      | startCompute h2 => exact absurd h2 hk
    · have h3 := cacheStep_nonabsent hstep k hk
      simp [ih h3, he]

theorem cacheTrace_start_le_one {K V ε : Type} [DecidableEq K]
    {s s' : K → EntryState V ε} {evs : List (CacheEvent K V ε)}
    [DecidableEq V] [DecidableEq ε]
    (h : CacheTrace s evs s') (k : K) :
    evs.count (.startCompute k) ≤ 1 := by
  induction h with
  | nil => simp
  | cons hstep htrace ih =>
    rw [List.count_cons]
    rename_i s0 s1 s2 e evs2
    by_cases he : e = CacheEvent.startCompute k
    · subst he
      cases hstep with
      | startCompute h2 =>
        have hp : updateEntry s0 k EntryState.pending k ≠ .absent := by
          simp [updateEntry]
        simp [cacheTrace_nostart htrace k hp]
    · simpa [he] using ih

theorem cacheStep_resolved_stable {K V ε : Type} [DecidableEq K]
    {s s' : K → EntryState V ε} {e : CacheEvent K V ε}
    (h : CacheStep s e s') (k : K) (o : Resolution V ε)
    (hk : s k = .resolved o) : s' k = .resolved o := by
  cases h with
  | startCompute h2 =>
    rename_i s0 k2
    by_cases hkk : k = k2
    · rw [hkk] at hk
      rw [h2] at hk
      exact absurd hk (by simp)
    · simpa [updateEntry, hkk] using hk
  | resolve h2 =>
    rename_i s0 k2 o2
    by_cases hkk : k = k2
    · rw [hkk] at hk
      rw [h2] at hk
      exact absurd hk (by simp)
    · simpa [updateEntry, hkk] using hk
  | deliver h2 => exact hk

theorem cacheTrace_deliver_of_resolved {K V ε : Type} [DecidableEq K]
    {s s' : K → EntryState V ε} {evs : List (CacheEvent K V ε)}
    (h : CacheTrace s evs s') (k : K) (o : Resolution V ε)
    (hk : s k = .resolved o) :
    ∀ o', CacheEvent.deliver k o' ∈ evs → o' = o := by
  induction h with
  | nil => simp
  | cons hstep htrace ih =>
    intro o' hmem
    rename_i s0 s1 s2 e evs2
    rcases List.mem_cons.mp hmem with hh | hh
    · subst hh
      cases hstep with
      | deliver h2 =>
        rw [hk] at h2
        exact (EntryState.resolved.inj h2).symm
    · exact ih (cacheStep_resolved_stable hstep k o hk) o' hh

theorem cacheTrace_deliver_agree {K V ε : Type} [DecidableEq K]
    {s s' : K → EntryState V ε} {evs : List (CacheEvent K V ε)}
    (h : CacheTrace s evs s') (k : K) (o₁ o₂ : Resolution V ε)
    (h1 : CacheEvent.deliver k o₁ ∈ evs)
    (h2 : CacheEvent.deliver k o₂ ∈ evs) : o₁ = o₂ := by
  induction h with
  | nil => simp at h1
  | cons hstep htrace ih =>
    rename_i s0 s1 s2 e evs2
    rcases List.mem_cons.mp h1 with ha | ha
    · rcases List.mem_cons.mp h2 with hb | hb
      · rw [← ha] at hb
        exact (CacheEvent.deliver.inj hb).2.symm
      · cases (ha ▸ hstep) with
        | deliver hres =>
          exact (cacheTrace_deliver_of_resolved htrace k o₁ hres o₂ hb).symm
    · rcases List.mem_cons.mp h2 with hb | hb
      · cases (hb ▸ hstep) with
        | deliver hres =>
          exact cacheTrace_deliver_of_resolved htrace k o₂ hres o₁ ha
      · exact ih ha hb

/-! ## The claims -/

/-- C1: For every cache key of the Cached Derived-Value Engine, in any
interleaved execution from the initial (all-absent) state, the
`Absent→Pending` transition — which is what launches the underlying
computation — occurs at most once for that key, and every requester that
observes the key's outcome observes the same resolution. -/
theorem claim_C1_cache_single_flight {K V ε : Type}
    [DecidableEq K] [DecidableEq V] [DecidableEq ε]
    (evs : List (CacheEvent K V ε)) (s' : K → EntryState V ε)
    (h : CacheTrace (initCacheState K V ε) evs s') (k : K) :
    evs.count (.startCompute k) ≤ 1 ∧
      ∀ o₁ o₂, CacheEvent.deliver k o₁ ∈ evs →
        CacheEvent.deliver k o₂ ∈ evs → o₁ = o₂ :=
  ⟨cacheTrace_start_le_one h k,
   fun o₁ o₂ h1 h2 => cacheTrace_deliver_agree h k o₁ o₂ h1 h2⟩

/-- Witness for C1: a four-event execution — one computation start, one
resolution, two concurrent requesters delivered the same outcome. -/
theorem claim_C1_witness :
    ([CacheEvent.startCompute 0, CacheEvent.resolve 0 (Resolution.ok 5),
      CacheEvent.deliver 0 (Resolution.ok 5),
      CacheEvent.deliver 0 (Resolution.ok 5)] :
        List (CacheEvent ℕ ℕ ℕ)).count (.startCompute 0) ≤ 1 ∧
      ∀ o₁ o₂,
        CacheEvent.deliver 0 o₁ ∈
          ([CacheEvent.startCompute 0, CacheEvent.resolve 0 (Resolution.ok 5),
            CacheEvent.deliver 0 (Resolution.ok 5),
            CacheEvent.deliver 0 (Resolution.ok 5)] :
              List (CacheEvent ℕ ℕ ℕ)) →
        CacheEvent.deliver 0 o₂ ∈
          ([CacheEvent.startCompute 0, CacheEvent.resolve 0 (Resolution.ok 5),
            CacheEvent.deliver 0 (Resolution.ok 5),
            CacheEvent.deliver 0 (Resolution.ok 5)] :
              List (CacheEvent ℕ ℕ ℕ)) → o₁ = o₂ :=
  claim_C1_cache_single_flight _ _
    (CacheTrace.cons (CacheStep.startCompute (by rfl))
      (CacheTrace.cons (CacheStep.resolve (by rfl))
        (CacheTrace.cons (CacheStep.deliver (by rfl))
          (CacheTrace.cons (CacheStep.deliver (by rfl)) CacheTrace.nil)))) 0

/-- C2: If the compute function raises on a key's first access, the
raised error becomes the key's stored resolution; every later `get` for
the same key returns that stored failure, leaves the cache unchanged,
and does not invoke the compute function again. -/
theorem claim_C2_error_cached {K V ε : Type} [DecidableEq K]
    (cache : K → Option (Resolution V ε)) (k : K)
    (f f' : Unit → Resolution V ε) (e : ε)
    (h1 : cache k = none) (h2 : f () = .err e) :
    (cacheGet cache k f).1 = .err e ∧
    (cacheGet cache k f).2.2 = true ∧
    ((cacheGet cache k f).2.1) k = some (.err e) ∧
    cacheGet ((cacheGet cache k f).2.1) k f' =
      (.err e, (cacheGet cache k f).2.1, false) := by
  simp [cacheGet, h1, h2]

/-- Witness for C2: an initially-empty cache, a computation failing with
error `7`, and a second lookup that would succeed with `1` if retried. -/
theorem claim_C2_witness :
    (cacheGet (fun _ : ℕ => (none : Option (Resolution ℕ ℕ))) 0
      (fun _ => .err 7)).1 = .err 7 ∧
    (cacheGet (fun _ : ℕ => (none : Option (Resolution ℕ ℕ))) 0
      (fun _ => .err 7)).2.2 = true ∧
    ((cacheGet (fun _ : ℕ => (none : Option (Resolution ℕ ℕ))) 0
      (fun _ => .err 7)).2.1) 0 = some (.err 7) ∧
    cacheGet ((cacheGet (fun _ : ℕ => (none : Option (Resolution ℕ ℕ))) 0
      (fun _ => .err 7)).2.1) 0 (fun _ => .ok 1) =
      (.err 7, (cacheGet (fun _ : ℕ => (none : Option (Resolution ℕ ℕ))) 0
        (fun _ => .err 7)).2.1, false) :=
  claim_C2_error_cached _ 0 _ (fun _ => .ok 1) 7 rfl rfl

/-- C3 counterexample: over rows `[0,1,2]` with extracted values
`[3,1,3]` (no errors, no nulls, row identity the row itself), `keymax`
returns `some 2` — the **last** row attaining the maximum value 3 — and
not `some 0`, the first such row, as the claim states.  Python computes
`max` over `(value, row)` tuples, so a value tie is broken by comparing
the rows themselves. -/
theorem claim_C3_counterexample :
    getValues (fun r : ℕ => (Except.ok ([3, 1, 3].getD r 0) : Except Unit ℕ))
      (fun _ => false) [0, 1, 2] = [3, 1, 3] ∧
    keymaxAggregate (fun r => r)
      (fun r : ℕ => (Except.ok ([3, 1, 3].getD r 0) : Except Unit ℕ))
      (fun _ => false) [0, 1, 2] = some 2 ∧
    (2 : ℕ) ≠ 0 := by
  decide

/-- C3 (amended): when at least one row yields an extractable non-null
value, `keymax` returns the row-key of a row whose `(value, row)` pair
is lexicographically maximal among all extracted pairs — i.e. a row
achieving the maximum value, with value ties broken toward the row
comparing greatest (Python tuple-`max` semantics), not toward the first
row in iteration order. -/
theorem claim_C3_keymax_lexmax {Row V K ε : Type}
    [LinearOrder V] [LinearOrder Row]
    (rowkey : Row → K) (gtv : Row → Except ε V) (isNull : V → Bool)
    (rows : List Row) (h : getValueRows gtv isNull rows ≠ []) :
    ∃ p ∈ getValueRows gtv isNull rows,
      keymaxAggregate rowkey gtv isNull rows = some (rowkey p.2) ∧
      ∀ q ∈ getValueRows gtv isNull rows, lexLe q p := by
  cases hl : getValueRows gtv isNull rows with
  | nil => exact absurd hl h
  | cons x xs =>
    refine ⟨xs.foldl (fun m y => if pyTupleGt y m then y else m) x, ?_, ?_, ?_⟩
    · exact pyMaxFold_mem xs x
    · simp only [keymaxAggregate, hl]
      rfl
    · exact pyMaxFold_ub xs x

/-- Witness for C3 (amended) at the `[3,1,3]` input. -/
theorem claim_C3_witness :
    ∃ p ∈ getValueRows
        (fun r : ℕ => (Except.ok ([3, 1, 3].getD r 0) : Except Unit ℕ))
        (fun _ => false) [0, 1, 2],
      keymaxAggregate (fun r => r)
        (fun r : ℕ => (Except.ok ([3, 1, 3].getD r 0) : Except Unit ℕ))
        (fun _ => false) [0, 1, 2] = some p.2 ∧
      ∀ q ∈ getValueRows
          (fun r : ℕ => (Except.ok ([3, 1, 3].getD r 0) : Except Unit ℕ))
          (fun _ => false) [0, 1, 2], lexLe q p :=
  claim_C3_keymax_lexmax (fun r => r)
    (fun r : ℕ => (Except.ok ([3, 1, 3].getD r 0) : Except Unit ℕ))
    (fun _ => false) [0, 1, 2] (by decide)

/-- C4 counterexample: attaching the registered name `q4` gives a column
whose attached list is the three percentile aggregators `p25 p50 p75`;
formatting that list and parsing it back raises `KeyError` (`p25` is not
a key of the `aggregators` dict), so the round-trip fails for this
reachable attached list. -/
theorem claim_C4_counterexample :
    addAggregators builtinAggregators [[]] ["q4".toList] = [quantiles 4] ∧
    parseAggregatorList builtinAggregators
      (formatAggregatorList (quantiles 4)) = Except.error () := by
  have hq4 : builtinAggregators ("q4".toList) =
      some (RegEntry.family [percentile 25, percentile 50, percentile 75]) := by
    rw [show builtinAggregators ("q4".toList) =
        some (RegEntry.family (quantiles 4)) from rfl, quantiles_four]
  constructor
  · rw [quantiles_four]
    simp only [addAggregators, List.foldl_cons, List.foldl_nil, resolveName, hq4]
    decide
  · rw [quantiles_four]
    rfl

/-- C4 (amended): for a column whose every attached aggregator is
registered in the registry under its own (nonempty, whitespace-free)
name, parsing the formatted aggregator string reproduces the attached
list — the same aggregator identities in the same order (each regained
as the registry's non-family entry for its name).  The round-trip fails
in general: quantile-family members such as `p25` are attachable but not
registered under their own names (see the counterexample). -/
theorem claim_C4_roundtrip (reg : List Char → Option RegEntry)
    (aggs : List Aggregator)
    (hreg : ∀ a ∈ aggs, reg a.name = some (.single a))
    (hname : ∀ a ∈ aggs, a.name ≠ [] ∧ ∀ c ∈ a.name, pyIsSpace c = false) :
    parseAggregatorList reg (formatAggregatorList aggs) =
      .ok (aggs.map RegEntry.single) := by
  have hwords : ∀ w ∈ aggs.map (fun a => a.name),
      w ≠ [] ∧ ∀ c ∈ w, pyIsSpace c = false := by
    intro w hw
    obtain ⟨a, ha, hEq⟩ := List.mem_map.mp hw
    exact hEq ▸ hname a ha
  unfold parseAggregatorList formatAggregatorList
  rw [pySplitWs_join (aggs.map (fun a => a.name)) hwords]
  exact resolveTokens_map_single reg aggs hreg

/-- Witness for C4 (amended): the attached list `[min, max]` round-trips
through the builtin registry. -/
theorem claim_C4_witness :
    parseAggregatorList builtinAggregators
      (formatAggregatorList
        [⟨"min".toList, 0⟩, ⟨"max".toList, 1⟩]) =
      .ok ([⟨"min".toList, 0⟩, ⟨"max".toList, 1⟩].map RegEntry.single) :=
  claim_C4_roundtrip builtinAggregators
    [⟨"min".toList, 0⟩, ⟨"max".toList, 1⟩] (by decide) (by decide)

/-- C5 counterexample: attaching the unregistered name `nope` through
`addAggregators` raises nothing and leaves every column's attached list
unchanged — the unknown name is silently ignored (`aggregators.get`
returns `None` and the `if aggr` guard skips it), contradicting the
claim that attach surfaces an error. -/
theorem claim_C5_counterexample :
    addAggregators builtinAggregators [[]] ["nope".toList] = [[]] := by
  decide

/-- C5 (amended): an unknown aggregator name is an error at parse time —
the textual-format setter raises `KeyError` on the first unknown token —
but `addAggregators` silently skips unknown names, leaving all columns
unchanged and raising nothing. -/
theorem claim_C5_unknown_name (reg : List Char → Option RegEntry)
    (nm tok s : List Char) (cols : List (List Aggregator))
    (h1 : reg nm = none) (h2 : tok ∈ pySplitWs s) (h3 : reg tok = none) :
    addAggregators reg cols [nm] = cols ∧
    parseAggregatorList reg s = .error () := by
  constructor
  · have hid : attachOne (none : Option Aggregator) = fun c => c := by
      funext c
      rfl
    simp [addAggregators, resolveName, h1, hid]
  · exact resolveTokens_unknown reg (pySplitWs s) tok h2 h3

/-- Witness for C5 (amended): the unknown name `nope`, also appearing as
the sole token of the parsed string. -/
theorem claim_C5_witness :
    addAggregators builtinAggregators [[⟨"min".toList, 0⟩]] ["nope".toList] =
      [[⟨"min".toList, 0⟩]] ∧
    parseAggregatorList builtinAggregators "nope".toList = .error () :=
  claim_C5_unknown_name builtinAggregators "nope".toList "nope".toList
    "nope".toList [[⟨"min".toList, 0⟩]] (by decide) (by decide) (by decide)

/-- C6: For every bulk-registered aggregator: on success the wrapped
function's return value is the result; on a raised error the result is
Python `None` when the materialized extracted-value sequence was empty,
and the raised error itself (returned, not thrown) when it was
non-empty. -/
theorem claim_C6_wrapper_policy {Row V S ε ε' : Type}
    (func : List V → Except ε S) (gtv : Row → Except ε' V)
    (isNull : V → Bool) (rows : List Row) :
    (∀ s, func (getValues gtv isNull rows) = .ok s →
      aggregatorWrap func gtv isNull rows = .value s) ∧
    (∀ e, func (getValues gtv isNull rows) = .error e →
      getValues gtv isNull rows = [] →
      aggregatorWrap func gtv isNull rows = .noneResult) ∧
    (∀ e, func (getValues gtv isNull rows) = .error e →
      getValues gtv isNull rows ≠ [] →
      aggregatorWrap func gtv isNull rows = .error e) := by
  refine ⟨?_, ?_, ?_⟩
  · intro s hs
    simp [aggregatorWrap, hs]
  · intro e he hempty
    rw [hempty] at he
    simp [aggregatorWrap, hempty, he]
  · intro e he hne
    simp [aggregatorWrap, he, List.length_eq_zero, hne]

/-- Witness for C6: a function failing with error `42` over an empty and
over a non-empty extraction, and the succeeding `count` function. -/
theorem claim_C6_witness :
    aggregatorWrap (fun _ : List ℕ => (Except.error 42 : Except ℕ ℕ))
      (fun r : ℕ => (Except.ok r : Except Unit ℕ)) (fun _ => false)
      [] = .noneResult ∧
    aggregatorWrap (fun _ : List ℕ => (Except.error 42 : Except ℕ ℕ))
      (fun r : ℕ => (Except.ok r : Except Unit ℕ)) (fun _ => false)
      [1] = .error 42 ∧
    aggregatorWrap (countFunc (ε := ℕ))
      (fun r : ℕ => (Except.ok r : Except Unit ℕ)) (fun _ => false)
      [1] = .value 1 :=
  ⟨(claim_C6_wrapper_policy (fun _ => .error 42)
      (fun r : ℕ => (Except.ok r : Except Unit ℕ)) (fun _ => false)
      []).2.1 42 rfl rfl,
   (claim_C6_wrapper_policy (fun _ => .error 42)
      (fun r : ℕ => (Except.ok r : Except Unit ℕ)) (fun _ => false)
      [1]).2.2 42 rfl (by decide),
   (claim_C6_wrapper_policy (countFunc (ε := ℕ))
      (fun r : ℕ => (Except.ok r : Except Unit ℕ)) (fun _ => false)
      [1]).1 1 rfl⟩

/-- C7: A row whose typed-value extraction raises is silently skipped —
removing it from the row sequence does not change `getValueRows`, and no
error propagates — and `count` returns exactly the number of rows whose
extraction succeeds with a non-null value. -/
theorem claim_C7_count {Row V ε ε' : Type} (gtv : Row → Except ε' V)
    (isNull : V → Bool) (rows rows₁ rows₂ : List Row) (r : Row) (ex : ε') :
    (gtv r = .error ex →
      getValueRows gtv isNull (rows₁ ++ r :: rows₂) =
        getValueRows gtv isNull (rows₁ ++ rows₂)) ∧
    countAggregate (ε := ε) gtv isNull rows =
      .value ((rows.filter
        (fun r2 => (extractOpt gtv isNull r2).isSome)).length) := by
  constructor
  · intro h
    simp [getValueRows, List.filterMap_append, List.filterMap_cons, h]
  · have hlen : (getValues gtv isNull rows).length =
        ((rows.filter (fun r2 => (extractOpt gtv isNull r2).isSome)).length) := by
      rw [← getValueRows_map_snd gtv isNull rows]
      simp [getValues]
    simp only [countAggregate, aggregatorWrap, countFunc, hlen]

/-- Witness for C7: rows `[0,1,2,3]` where row 1's extraction raises and
row 0 extracts a null value; `count` is 2 and dropping row 1 leaves the
extraction unchanged. -/
theorem claim_C7_witness :
    (getValueRows (fun r : ℕ => if r = 1 then .error () else Except.ok r)
        (fun v => decide (v = 0)) ([0] ++ 1 :: [2, 3]) =
      getValueRows (fun r : ℕ => if r = 1 then .error () else Except.ok r)
        (fun v => decide (v = 0)) ([0] ++ [2, 3])) ∧
    countAggregate (ε := ℕ)
        (fun r : ℕ => if r = 1 then .error () else Except.ok r)
        (fun v => decide (v = 0)) [0, 1, 2, 3] =
      .value (([0, 1, 2, 3].filter
        (fun r2 => (extractOpt
          (fun r : ℕ => if r = 1 then .error () else Except.ok r)
          (fun v => decide (v = 0)) r2).isSome)).length) :=
  ⟨(claim_C7_count (ε := ℕ) (fun r : ℕ => if r = 1 then .error () else Except.ok r)
      (fun v => decide (v = 0)) [0, 1, 2, 3] [0] [2, 3] 1 ()).1 rfl,
   (claim_C7_count (ε := ℕ) (fun r : ℕ => if r = 1 then .error () else Except.ok r)
      (fun v => decide (v = 0)) [0, 1, 2, 3] [0] [2, 3] 1 ()).2⟩

/-- C8: `_percentile` returns `None` on an empty sequence for every
fraction; on a non-empty sequence with fraction in `[0,1]` it returns,
with `k = (n-1)*fraction`, `f = ⌊k⌋`, `c = ⌈k⌉`: `N[k]` when `f = c`
and the interpolation `N[f]*(c-k) + N[c]*(k-f)` otherwise; and
`_percentile [1,2,3,4] 0.5 = 2.5`. -/
theorem claim_C8_percentile (N : List ℚ) (fr : ℚ)
    (h0 : 0 ≤ fr) (h1 : fr ≤ 1) (hne : N ≠ []) :
    (∀ fr2 : ℚ, _percentile [] fr2 = none) ∧
    (_percentile N fr =
      if ⌊((N.length : ℚ) - 1) * fr⌋ = ⌈((N.length : ℚ) - 1) * fr⌉ then
        some (N.getD (⌊((N.length : ℚ) - 1) * fr⌋).toNat 0)
      else
        some (N.getD (⌊((N.length : ℚ) - 1) * fr⌋).toNat 0 *
            ((⌈((N.length : ℚ) - 1) * fr⌉ : ℚ) - ((N.length : ℚ) - 1) * fr) +
          N.getD (⌈((N.length : ℚ) - 1) * fr⌉).toNat 0 *
            (((N.length : ℚ) - 1) * fr - (⌊((N.length : ℚ) - 1) * fr⌋ : ℚ)))) ∧
    _percentile [1, 2, 3, 4] (1 / 2) = some (5 / 2) := by
  have hk : (0 : ℚ) ≤ ((N.length : ℚ) - 1) * fr := by
    have hlen : (1 : ℚ) ≤ (N.length : ℚ) := by
      have h2 : 1 ≤ N.length := List.length_pos.mpr hne
      exact_mod_cast h2
    have : (0 : ℚ) ≤ (N.length : ℚ) - 1 := by linarith
    exact mul_nonneg this h0
  refine ⟨fun fr2 => rfl, ?_, ?_⟩
  · have hpy : pyInt (((N.length : ℚ) - 1) * fr) =
        ⌊((N.length : ℚ) - 1) * fr⌋ := by
      simp [pyInt, hk]
    simp only [_percentile, hne, if_false, hpy]
  · have h32 : (((4 : ℚ)) - 1) * (1 / 2) = 3 / 2 := by norm_num
    have hc : ⌈(3 : ℚ) / 2⌉ = 2 := by
      rw [Int.ceil_eq_iff]
      norm_num
    have hf : ⌊(3 : ℚ) / 2⌋ = 1 := by norm_num
    simp only [_percentile, pyInt, List.length_cons, List.length_nil]
    norm_num [h32, hc, hf]
    exact ⟨by simp, by norm_num [show Int.toNat 2 = 2 from rfl]⟩

/-- Witness for C8 at `N = [1,2,3,4]`, `fraction = 1/2`. -/
theorem claim_C8_witness :
    _percentile [1, 2, 3, 4] (1 / 2) = some (5 / 2) :=
  (claim_C8_percentile [1, 2, 3, 4] (1 / 2) (by norm_num) (by norm_num)
    (by simp)).2.2

/-- C9: attaching an aggregator already present in a column's attached
list leaves the list unchanged (both directly and through
`addAggregators`), and membership is decided by object identity: a
distinct aggregator object with the same name is still appended. -/
theorem claim_C9_attach_idempotent (reg : List Char → Option RegEntry)
    (c : List Aggregator) (a a' : Aggregator) (nm : List Char)
    (h1 : a ∈ c) (h2 : reg nm = some (.single a)) (h3 : a' ∉ c) :
    attachOne (some a) c = c ∧
    addAggregators reg [c] [nm] = [c] ∧
    attachOne (some a') c = c ++ [a'] := by
  refine ⟨?_, ?_, ?_⟩
  · simp [attachOne, h1]
  · simp [addAggregators, resolveName, h2, attachOne, h1]
  · simp [attachOne, h3]

/-- Witness for C9: re-attaching the builtin `min` aggregator to a
column that has it, and attaching a same-named but distinct object. -/
theorem claim_C9_witness :
    attachOne (some ⟨"min".toList, 0⟩) [⟨"min".toList, 0⟩] =
      [⟨"min".toList, 0⟩] ∧
    addAggregators builtinAggregators [[⟨"min".toList, 0⟩]] ["min".toList] =
      [[⟨"min".toList, 0⟩]] ∧
    attachOne (some ⟨"min".toList, 99⟩) [⟨"min".toList, 0⟩] =
      [⟨"min".toList, 0⟩] ++ [⟨"min".toList, 99⟩] :=
  claim_C9_attach_idempotent builtinAggregators [⟨"min".toList, 0⟩]
    ⟨"min".toList, 0⟩ ⟨"min".toList, 99⟩ ("min".toList)
    (by decide) (by decide) (by decide)

/-- C10: the extractor's output lists the input rows that extract
successfully to a non-null value, in input order; each produced pair
carries that row's extracted value; and `getValues` is the first
projection of `getValueRows` in the same order. -/
theorem claim_C10_extractor_order {Row V ε : Type} (gtv : Row → Except ε V)
    (isNull : V → Bool) (rows : List Row) :
    ((getValueRows gtv isNull rows).map Prod.snd =
      rows.filter (fun r => (extractOpt gtv isNull r).isSome)) ∧
    (∀ p ∈ getValueRows gtv isNull rows,
      extractOpt gtv isNull p.2 = some p.1) ∧
    getValues gtv isNull rows = (getValueRows gtv isNull rows).map Prod.fst :=
  ⟨getValueRows_map_snd gtv isNull rows, getValueRows_val gtv isNull rows,
   rfl⟩

/-- Witness for C10 over rows `[0,1,2,3]` where row 1 raises and row 0
is null: output rows are `[2,3]` in order, and the pair `(2, 2)` carries
row 2's extracted value. -/
theorem claim_C10_witness :
    ((getValueRows (fun r : ℕ => if r = 1 then .error () else Except.ok r)
        (fun v => decide (v = 0)) [0, 1, 2, 3]).map Prod.snd =
      [0, 1, 2, 3].filter
        (fun r => (extractOpt
          (fun r2 : ℕ => if r2 = 1 then .error () else Except.ok r2)
          (fun v => decide (v = 0)) r).isSome)) ∧
    extractOpt (fun r : ℕ => if r = 1 then .error () else Except.ok r)
      (fun v => decide (v = 0)) 2 = some 2 ∧
    getValues (fun r : ℕ => if r = 1 then .error () else Except.ok r)
      (fun v => decide (v = 0)) [0, 1, 2, 3] =
      (getValueRows (fun r : ℕ => if r = 1 then .error () else Except.ok r)
        (fun v => decide (v = 0)) [0, 1, 2, 3]).map Prod.fst :=
  ⟨(claim_C10_extractor_order
      (fun r : ℕ => if r = 1 then .error () else Except.ok r)
      (fun v => decide (v = 0)) [0, 1, 2, 3]).1,
   (claim_C10_extractor_order
      (fun r : ℕ => if r = 1 then .error () else Except.ok r)
      (fun v => decide (v = 0)) [0, 1, 2, 3]).2.1 (2, 2) (by decide),
   (claim_C10_extractor_order
      (fun r : ℕ => if r = 1 then .error () else Except.ok r)
      (fun v => decide (v = 0)) [0, 1, 2, 3]).2.2⟩

end VisidataHPC
